import Mathlib

/-!
Verification of `scripts/generate-api-docs.py` (Smart Home System API
documentation generator).

Documents are modelled as lists of characters (Python `str`).  Each
definition below embeds one function of the script; line numbers refer to
the script.  File I/O is modelled explicitly: a read is an
`Except Chars Chars` (error message or content), the file system at the
start of a run is a partial map from paths to contents, and a run reports
the list of paths it wrote.
-/

/-- Characters of a document, in order (Python `str`). -/
abbrev Chars := List Char

/-- `c` starts with `p` (the primitive of Python substring search). -/
def leadsWith : Chars → Chars → Bool
  | [], _ => true
  | _ :: _, [] => false
  | x :: p, y :: c => x == y && leadsWith p c

/-- Python `needle in hay`: `needle` occurs contiguously in `hay`. -/
def inStr (needle : Chars) : Chars → Bool
  | [] => leadsWith needle []
  | x :: r => leadsWith needle (x :: r) || inStr needle r

theorem leadsWith_iff (p c : Chars) : leadsWith p c = true ↔ p <+: c := by
  induction p generalizing c with
  | nil => simp [leadsWith]
  | cons x p ih =>
    cases c with
    | nil => simp [leadsWith]
    | cons y c => simp [leadsWith, Bool.and_eq_true, ih, List.cons_prefix_cons]

theorem inStr_iff (s c : Chars) : inStr s c = true ↔ s <:+: c := by
  induction c with
  | nil => simp [inStr, leadsWith_iff]
  | cons x r ih => simp [inStr, leadsWith_iff, ih, List.infix_cons_iff]

/-- Python `c.replace(pat, rep)`: leftmost-first, non-overlapping
replacement of every occurrence.  (The script only ever calls it with the
non-empty pattern `titleLine`, so the `pat ≠ []` guard is never the
deciding conjunct on those calls.) -/
def replaceAll (pat rep : Chars) (c : Chars) : Chars :=
  if h : pat ≠ [] ∧ leadsWith pat c = true then
    rep ++ replaceAll pat rep (c.drop pat.length)
  else
    match c with
    | [] => []
    | x :: r => x :: replaceAll pat rep r
termination_by c.length
decreasing_by
  · have hp : pat <+: c := (leadsWith_iff pat c).mp h.2
    have h1 : pat.length ≤ c.length := hp.length_le
    have h2 : 0 < pat.length := List.length_pos.mpr h.1
    simp only [List.length_drop]
    omega
  · simp

/-- The top-level title targeted by metadata injection (line 61). -/
def titleLine : Chars := "# Smart Home System API Documentation".toList

def overviewSec : Chars := "## Overview".toList

def authSec : Chars := "## Authentication".toList

def endpointsSec : Chars := "## Endpoints".toList

def examplesSec : Chars := "## Request/Response Examples".toList

def errorCodesSec : Chars := "## Error Codes".toList

/-- `required_sections` (lines 33–39), in the order checked. -/
def required_sections : List Chars :=
  [overviewSec, authSec, endpointsSec, examplesSec, errorCodesSec]

/-- Outcome of template validation.  The source function returns only a
boolean; `errors` is the `missing_sections` list it reports in its error
message (line 47).  The source emits no warnings of any kind, so the
warning output is always empty — the field records that fact explicitly
so that claims about warnings can be stated. -/
structure TemplateValidation where
  valid : Bool
  errors : List Chars
  warnings : List Chars
  deriving Repr, DecidableEq

/-- `validate_template_content` (lines 31–50): every required section
absent from the template (Python substring test, line 43) is collected, in
order; the result is valid exactly when nothing is missing. -/
def validate_template_content (template_content : Chars) : TemplateValidation :=
  let missing_sections := required_sections.foldl
    (fun acc sec => if inStr sec template_content then acc else acc ++ [sec]) []
  { valid := missing_sections.isEmpty, errors := missing_sections, warnings := [] }

/-- The `metadata` dict of the script, restricted to the one key
`generate_api_docs` reads.  `version := none` models a dict without the
`'version'` key. -/
structure Metadata where
  version : Option Chars
  deriving Repr, DecidableEq

/-- `metadata.get('version', '1.0.0')` (line 60). -/
def Metadata.getVersion (m : Metadata) : Chars := m.version.getD "1.0.0".toList

/-- The `metadata_section` string of lines 59–60. -/
def metadata_section (ts ver : Chars) : Chars :=
  "\n<!-- Generated: ".toList ++ ts ++ " -->\n".toList ++
    "<!-- Version: ".toList ++ ver ++ " -->\n".toList

/-- `generate_api_docs` (lines 53–75): the content written to the output
file.  `ts` is the wall-clock stamp `datetime.datetime.now().isoformat()`
of line 59; `metadata = none` models a falsy (absent or empty) metadata
argument, in which case the template content passes through untouched. -/
def generate_api_docs (template_content : Chars) (metadata : Option Metadata)
    (ts : Chars) : Chars :=
  match metadata with
  | none => template_content
  | some md =>
    replaceAll titleLine (titleLine ++ metadata_section ts md.getVersion)
      template_content

/-- The `validation_results` record of `validate_generated_docs`
(lines 80–91, plus the `'error'` key added at line 127). -/
structure DocsValidation where
  has_overview : Bool
  has_authentication : Bool
  has_endpoints : Bool
  has_examples : Bool
  has_error_codes : Bool
  has_http_examples : Bool
  has_json_examples : Bool
  line_count : Nat
  word_count : Nat
  validation_passed : Bool
  error : Option Chars
  deriving Repr, DecidableEq

/-- The initial `validation_results` dict (lines 80–91). -/
def initialValidation : DocsValidation :=
  { has_overview := false
    has_authentication := false
    has_endpoints := false
    has_examples := false
    has_error_codes := false
    has_http_examples := false
    has_json_examples := false
    line_count := 0
    word_count := 0
    validation_passed := false
    error := none }

/-- The whitespace characters of Python `str.split()` with no argument. -/
def isPySpace (ch : Char) : Bool :=
  ch == ' ' || ch == '\t' || ch == '\n' || ch == '\r' || ch == '\x0b' || ch == '\x0c'

def wordCountAux : Chars → Bool → Nat
  | [], _ => 0
  | ch :: r, inTok =>
    if isPySpace ch then wordCountAux r false
    else (if inTok then 0 else 1) + wordCountAux r true

/-- `len(content.split())` (line 108): number of maximal runs of
non-whitespace characters. -/
def word_count (c : Chars) : Nat := wordCountAux c false

/-- `len(content.split('\n'))` (line 107): one more than the number of
newline characters. -/
def line_count (c : Chars) : Nat := c.count '\n' + 1

def httpFence : Chars := "```http".toList

def jsonFence : Chars := "```json".toList

/-- `validate_generated_docs` (lines 78–128).  The file read of line 94 is
the `read` argument: `Except.ok content` is a successful read of the docs
path, `Except.error e` is any failing read, whose exception the source
catches, recording the message under `'error'` and returning the record
unchanged from its initialisation. -/
def validate_generated_docs (read : Except Chars Chars) : DocsValidation :=
  match read with
  | .error e => { initialValidation with error := some e }
  | .ok content =>
    let r := { initialValidation with
      has_overview := inStr overviewSec content
      has_authentication := inStr authSec content
      has_endpoints := inStr endpointsSec content
      has_examples := inStr examplesSec content
      has_error_codes := inStr errorCodesSec content
      has_http_examples := inStr httpFence content
      has_json_examples := inStr jsonFence content
      line_count := line_count content
      word_count := word_count content }
    let required_checks := [r.has_overview, r.has_authentication, r.has_endpoints,
      r.has_examples, r.has_error_codes, r.has_http_examples, r.has_json_examples]
    { r with validation_passed := required_checks.all id }

/-- `main` (lines 167–227) in generate mode (no `--validate-only`),
returning the process exit code and the list of paths written, in order.
`fs` is the file-system content visible to the template read of line 184;
writes are modelled as succeeding, and the post-generation validation of
line 202 re-reads exactly the content just written to the output path. -/
def runGenerate (fs : Chars → Option Chars) (tpath opath rpath : Chars)
    (ts : Chars) : Nat × List Chars :=
  match fs tpath with
  | none => (1, [])
  | some template_content =>
    if (validate_template_content template_content).valid then
      let out := generate_api_docs template_content
        (some { version := some "1.0.0".toList }) ts
      let vr := validate_generated_docs (Except.ok out)
      ((if vr.validation_passed then 0 else 1), [opath, rpath])
    else (1, [])

theorem replaceAll_nil (pat rep : Chars) : replaceAll pat rep [] = [] := by
  rw [replaceAll]
  split
  · next h =>
    exact absurd (List.prefix_nil.mp ((leadsWith_iff pat []).mp h.2)) h.1
  · rfl

theorem replaceAll_pos {pat c : Chars} (rep : Chars) (h1 : pat ≠ []) (h2 : pat <+: c) :
    replaceAll pat rep c = rep ++ replaceAll pat rep (c.drop pat.length) := by
  rw [replaceAll, dif_pos ⟨h1, (leadsWith_iff pat c).mpr h2⟩]

theorem replaceAll_neg {pat : Chars} (rep : Chars) {x : Char} {r : Chars}
    (h : ¬ pat <+: x :: r) :
    replaceAll pat rep (x :: r) = x :: replaceAll pat rep r := by
  rw [replaceAll, dif_neg fun hc => h ((leadsWith_iff _ _).mp hc.2)]

/-- Replacing every occurrence of `pat` by `pat ++ m` keeps every prefix
in which `pat` does not occur. -/
theorem keepPfx {pat m : Chars} (hpat : pat ≠ []) :
    ∀ n c s, c.length ≤ n → ¬ pat <:+: s → s <+: c →
      s <+: replaceAll pat (pat ++ m) c := by
  intro n
  induction n with
  | zero =>
    intro c s hc hno hs
    have hcnil : c = [] := List.eq_nil_of_length_eq_zero (Nat.le_zero.mp hc)
    subst hcnil
    have hsnil : s = [] := List.prefix_nil.mp hs
    subst hsnil
    exact List.nil_prefix
  | succ n ih =>
    intro c s hc hno hs
    by_cases hp : pat <+: c
    · rw [replaceAll_pos (pat ++ m) hpat hp]
      rcases le_or_lt s.length pat.length with hle | hlt
      · have h1 : s <+: pat := List.prefix_of_prefix_length_le hs hp hle
        have h2 : pat <+: (pat ++ m) ++ replaceAll pat (pat ++ m) (c.drop pat.length) := by
          simpa [List.append_assoc] using
            List.prefix_append pat (m ++ replaceAll pat (pat ++ m) (c.drop pat.length))
        exact h1.trans h2
      · exact absurd (List.prefix_of_prefix_length_le hp hs (Nat.le_of_lt hlt)).isInfix hno
    · cases c with
      | nil =>
        have hsnil : s = [] := List.prefix_nil.mp hs
        subst hsnil
        exact List.nil_prefix
      | cons x r =>
        rw [replaceAll_neg _ hp]
        cases s with
        | nil => exact List.nil_prefix
        | cons y s' =>
          obtain ⟨rfl, hs'⟩ := List.cons_prefix_cons.mp hs
          have hno' : ¬ pat <:+: s' := fun hin => hno (List.infix_cons hin)
          have hr : r.length ≤ n := by
            simp only [List.length_cons] at hc
            omega
          exact List.cons_prefix_cons.mpr ⟨rfl, ih r s' hr hno' hs'⟩

/-- An infix of `t ++ b` lies inside `t`, lies inside `b`, or splits into a
nonempty suffix of `t` followed by a nonempty prefix of `b`. -/
theorem infixAppendCases {s t b : Chars} (h : s <:+: t ++ b) :
    s <:+: t ∨ s <:+: b ∨
      ∃ s1 s2, s = s1 ++ s2 ∧ s1 ≠ [] ∧ s2 ≠ [] ∧ s1 <:+ t ∧ s2 <+: b := by
  induction t with
  | nil =>
    right; left
    simpa using h
  | cons x t ih =>
    rcases List.infix_cons_iff.mp (by simpa using h) with hpre | hinf
    · rcases le_or_lt s.length (x :: t).length with hle | hlt
      · left
        have hxt : (x :: t) <+: x :: (t ++ b) := by
          simpa using List.prefix_append (x :: t) b
        exact (List.prefix_of_prefix_length_le hpre hxt hle).isInfix
      · right; right
        have hxt : (x :: t) <+: x :: (t ++ b) := by
          simpa using List.prefix_append (x :: t) b
        have hts : (x :: t) <+: s :=
          List.prefix_of_prefix_length_le hxt hpre (Nat.le_of_lt hlt)
        obtain ⟨s2, rfl⟩ := hts
        refine ⟨x :: t, s2, rfl, by simp, ?_, List.suffix_refl _, ?_⟩
        · intro h2
          subst h2
          simp at hlt
        · have : (x :: t) ++ s2 <+: (x :: t) ++ b := by simpa using hpre
          exact (List.prefix_append_right_inj (x :: t)).mp this
    · rcases ih hinf with h1 | h2 | ⟨s1, s2, rfl, hs1, hs2, hsuf, hpre2⟩
      · left; exact List.infix_cons h1
      · right; left; exact h2
      · exact Or.inr (Or.inr ⟨s1, s2, rfl, hs1, hs2, hsuf.trans (List.suffix_cons x t), hpre2⟩)

/-- `s` neither contains `pat` nor begins with a nonempty proper suffix of
`pat`: the occurrences of `s` that survive a replacement of `pat`. -/
def noCross (pat s : Chars) : Prop :=
  (¬ pat <:+: s) ∧ ∀ i < pat.length, 0 < i → ¬ (pat.drop i) <+: s

/-- Replacing every occurrence of `pat` by `pat ++ m` keeps every infix
that cannot straddle an occurrence of `pat`. -/
theorem keepInf {pat m : Chars} (hpat : pat ≠ []) :
    ∀ n c s, c.length ≤ n → noCross pat s → s <:+: c →
      s <:+: replaceAll pat (pat ++ m) c := by
  intro n
  induction n with
  | zero =>
    intro c s hc hnc hs
    have hcnil : c = [] := List.eq_nil_of_length_eq_zero (Nat.le_zero.mp hc)
    subst hcnil
    have hsnil : s = [] := List.infix_nil.mp hs
    subst hsnil
    exact List.nil_infix
  | succ n ih =>
    intro c s hc hnc hs
    by_cases hp : pat <+: c
    · rw [replaceAll_pos (pat ++ m) hpat hp]
      obtain ⟨r, rfl⟩ := hp
      have hdrop : (pat ++ r).drop pat.length = r := List.drop_left pat r
      rw [hdrop]
      rcases infixAppendCases hs with h1 | h2 | ⟨s1, s2, hsplit, hs1, hs2, hsuf, hpre⟩
      · have h2 : pat <+: (pat ++ m) ++ replaceAll pat (pat ++ m) r := by
          simpa [List.append_assoc] using
            List.prefix_append pat (m ++ replaceAll pat (pat ++ m) r)
        exact h1.trans h2.isInfix
      · have hr : r.length ≤ n := by
          have hplen : 0 < pat.length := List.length_pos.mpr hpat
          simp only [List.length_append] at hc
          omega
        exact (ih r s hr hnc h2).trans (List.suffix_append (pat ++ m) _).isInfix
      · exfalso
        obtain ⟨u, hu⟩ := hsuf
        have hs1pre : s1 <+: s := hsplit ▸ List.prefix_append s1 s2
        by_cases hu0 : u = []
        · subst hu0
          simp only [List.nil_append] at hu
          subst hu
          exact hnc.1 hs1pre.isInfix
        · have hdrop2 : pat.drop u.length = s1 := by
            rw [← hu]; exact List.drop_left u s1
          have hi1 : 0 < u.length := List.length_pos.mpr hu0
          have hi2 : u.length < pat.length := by
            rw [← hu]
            have : 0 < s1.length := List.length_pos.mpr hs1
            simp only [List.length_append]
            omega
          exact hnc.2 u.length hi2 hi1 (hdrop2 ▸ hs1pre)
    · cases c with
      | nil =>
        have hsnil : s = [] := List.infix_nil.mp hs
        subst hsnil
        exact List.nil_infix
      | cons x r =>
        rw [replaceAll_neg _ hp]
        have hr : r.length ≤ n := by
          simp only [List.length_cons] at hc
          omega
        rcases List.infix_cons_iff.mp hs with hpre | hinf
        · cases s with
          | nil => exact List.nil_infix
          | cons y s' =>
            obtain ⟨rfl, hs'⟩ := List.cons_prefix_cons.mp hpre
            have hno' : ¬ pat <:+: s' := fun hin => hnc.1 (List.infix_cons hin)
            have := keepPfx (m := m) hpat n r s' hr hno' hs'
            exact (List.cons_prefix_cons.mpr ⟨rfl, this⟩).isInfix
        · exact List.infix_cons (ih r s hr hnc hinf)

/-- If `pat` does not occur in `c`, replacement leaves `c` unchanged. -/
theorem replaceAll_noOcc {pat c : Chars} (rep : Chars) (h : ¬ pat <:+: c) :
    replaceAll pat rep c = c := by
  induction c with
  | nil => exact replaceAll_nil pat rep
  | cons x r ih =>
    have hp : ¬ pat <+: x :: r := fun hp => h hp.isInfix
    rw [replaceAll_neg rep hp, ih fun hin => h (List.infix_cons hin)]

/-- Python `c.split(pat)` for non-empty `pat`: the segments of `c` between
the occurrences that `replaceAll` rewrites (left to right,
non-overlapping). -/
def splitAll (pat c : Chars) : List Chars :=
  if h : pat ≠ [] ∧ leadsWith pat c = true then
    [] :: splitAll pat (c.drop pat.length)
  else
    match c with
    | [] => [[]]
    | x :: r =>
      match splitAll pat r with
      | [] => [[x]]
      | s :: t => (x :: s) :: t
termination_by c.length
decreasing_by
  · have hp : pat <+: c := (leadsWith_iff pat c).mp h.2
    have h1 : pat.length ≤ c.length := hp.length_le
    have h2 : 0 < pat.length := List.length_pos.mpr h.1
    simp only [List.length_drop]
    omega
  · simp

/-- Python `sep.join(segs)`. -/
def joinWith (sep : Chars) : List Chars → Chars
  | [] => []
  | [s] => s
  | s :: t => s ++ sep ++ joinWith sep t

theorem splitAll_ne_nil (pat c : Chars) : splitAll pat c ≠ [] := by
  rw [splitAll]
  split
  · simp
  · split
    · simp
    · split <;> simp

theorem joinWith_cons_cons (sep s1 s2 : Chars) (t : List Chars) :
    joinWith sep (s1 :: s2 :: t) = s1 ++ sep ++ joinWith sep (s2 :: t) := rfl

theorem joinWith_cons_head (sep : Chars) (x : Char) (s : Chars) (t : List Chars) :
    joinWith sep ((x :: s) :: t) = x :: joinWith sep (s :: t) := by
  cases t with
  | nil => rfl
  | cons u t => simp [joinWith_cons_cons, List.cons_append, List.append_assoc]

/-- `c.replace(pat, rep)` equals the `pat`-segments of `c` joined with
`rep`; the segment list does not depend on `rep`. -/
theorem replaceAll_eq_joinWith (pat rep : Chars) :
    ∀ n c, c.length ≤ n → replaceAll pat rep c = joinWith rep (splitAll pat c) := by
  intro n
  induction n with
  | zero =>
    intro c hc
    have hcnil : c = [] := List.eq_nil_of_length_eq_zero (Nat.le_zero.mp hc)
    subst hcnil
    rw [replaceAll_nil, splitAll]
    split
    · next h => exact absurd (List.prefix_nil.mp ((leadsWith_iff pat []).mp h.2)) h.1
    · rfl
  | succ n ih =>
    intro c hc
    by_cases hcase : pat ≠ [] ∧ leadsWith pat c = true
    · rw [replaceAll, dif_pos hcase, splitAll, dif_pos hcase]
      have hr : (c.drop pat.length).length ≤ n := by
        have h1 : pat.length ≤ c.length := ((leadsWith_iff pat c).mp hcase.2).length_le
        have h2 : 0 < pat.length := List.length_pos.mpr hcase.1
        simp only [List.length_drop]
        omega
      rw [ih _ hr]
      obtain ⟨s, t, hst⟩ := List.exists_cons_of_ne_nil (splitAll_ne_nil pat (c.drop pat.length))
      rw [hst, joinWith_cons_cons]
      simp
    · cases c with
      | nil =>
        rw [replaceAll_nil, splitAll]
        rw [dif_neg hcase]
        rfl
      | cons x r =>
        rw [replaceAll, dif_neg hcase, splitAll, dif_neg hcase]
        have hr : r.length ≤ n := by
          simp only [List.length_cons] at hc
          omega
        obtain ⟨s, t, hst⟩ := List.exists_cons_of_ne_nil (splitAll_ne_nil pat r)
        show x :: replaceAll pat rep r = joinWith rep (match splitAll pat r with
          | [] => [[x]]
          | s :: t => (x :: s) :: t)
        rw [ih r hr, hst, joinWith_cons_head]

/-- The `missing_sections` loop of lines 41–44 collects, onto `acc`, the
sections failing the substring test, in order. -/
theorem foldl_missing (t : Chars) :
    ∀ (l : List Chars) (acc : List Chars),
      l.foldl (fun acc sec => if inStr sec t then acc else acc ++ [sec]) acc
        = acc ++ l.filter fun sec => !(inStr sec t) := by
  intro l
  induction l with
  | nil => intro acc; simp
  | cons s l ih =>
    intro acc
    simp only [List.foldl_cons, List.filter_cons]
    by_cases h : inStr s t
    · simp [h, ih]
    · simp [h, ih]

/-- The reported `missing_sections` are exactly the required sections whose
substring test fails, in the order checked. -/
theorem errors_eq_filter (t : Chars) :
    (validate_template_content t).errors
      = required_sections.filter fun sec => !(inStr sec t) := by
  simp [validate_template_content, foldl_missing]

/-- Appending a block that begins with a newline and does not itself
contain `s` neither creates nor destroys occurrences of a newline-free
`s`. -/
theorem inStr_append_eq {s b : Chars} (t : Chars) (hnb : ¬ s <:+: b)
    (hhead : ∃ r, b = '\n' :: r) (hnl : '\n' ∉ s) :
    inStr s (t ++ b) = inStr s t := by
  by_cases h : s <:+: t
  · rw [(inStr_iff s t).mpr h,
      (inStr_iff s (t ++ b)).mpr (h.trans (List.prefix_append t b).isInfix)]
  · have h2 : ¬ s <:+: t ++ b := by
      intro hin
      rcases infixAppendCases hin with h1 | h1 | ⟨s1, s2, hsplit, hs1, hs2, hsuf, hpre⟩
      · exact h h1
      · exact hnb h1
      · obtain ⟨r, rfl⟩ := hhead
        cases s2 with
        | nil => exact hs2 rfl
        | cons y s2' =>
          obtain ⟨rfl, -⟩ := List.cons_prefix_cons.mp hpre
          exact hnl (by simp [hsplit])
    cases hb : inStr s (t ++ b) with
    | false =>
      cases hbt : inStr s t with
      | false => rfl
      | true => exact absurd ((inStr_iff _ _).mp hbt) h
    | true => exact absurd ((inStr_iff _ _).mp hb) h2

/-- A complete template: title line, the five required sections, an `http`
fenced block and a `json` fenced block. -/
def demoTemplate : Chars :=
  ("# Smart Home System API Documentation\n\n## Overview\nAn API.\n\n" ++
   "## Authentication\nToken.\n\n## Endpoints\nGET /devices\n\n" ++
   "## Request/Response Examples\n\n```http\nGET /api/devices HTTP/1.1\n```\n\n" ++
   "```json\n\x7b\"ok\": true\x7d\n```\n\n## Error Codes\n404\n").toList

/-- A template with every required section except `## Error Codes`. -/
def missingErrTemplate : Chars :=
  "## Overview\n## Authentication\n## Endpoints\n## Request/Response Examples\n".toList

/-- The error text the spec predicts for a missing `Error Codes` section. -/
def claimedErrMsg : Chars := "Missing required section: Error Codes".toList

/-- A template whose five section names occur only inside third-level
(`###`) headings, never on a `## <Section>` line of their own. -/
def tripleHashTemplate : Chars :=
  ("### Overview\n### Authentication\n### Endpoints\n" ++
   "### Request/Response Examples\n### Error Codes\n").toList

/-- Body of a fenced `json` block whose content is invalid JSON. -/
def badJsonTail : Chars := "```json\n\x7b\"a\": \x7d\n```\n".toList

/-- A fenced `json` block with invalid JSON body, starting on a fresh line. -/
def badJsonBlock : Chars := '\n' :: badJsonTail

/-- C1.  For every content, `validate_generated_docs` on a successful read
of that content sets `validation_passed` to true iff all seven boolean
checks (five section substrings plus the two fenced-example substrings)
are true. -/
theorem c1_validation_passed_iff (content : Chars) :
    (validate_generated_docs (Except.ok content)).validation_passed = true ↔
      ((validate_generated_docs (Except.ok content)).has_overview = true ∧
       (validate_generated_docs (Except.ok content)).has_authentication = true ∧
       (validate_generated_docs (Except.ok content)).has_endpoints = true ∧
       (validate_generated_docs (Except.ok content)).has_examples = true ∧
       (validate_generated_docs (Except.ok content)).has_error_codes = true ∧
       (validate_generated_docs (Except.ok content)).has_http_examples = true ∧
       (validate_generated_docs (Except.ok content)).has_json_examples = true) := by
  simp [validate_generated_docs, List.all]

/-- C2.  Every template text containing all five required headings as
substrings validates with `valid = true` and an empty error list (and, as
always, no warnings). -/
theorem c2_all_sections_valid (t : Chars)
    (h1 : inStr overviewSec t = true) (h2 : inStr authSec t = true)
    (h3 : inStr endpointsSec t = true) (h4 : inStr examplesSec t = true)
    (h5 : inStr errorCodesSec t = true) :
    validate_template_content t = { valid := true, errors := [], warnings := [] } := by
  simp [validate_template_content, required_sections, h1, h2, h3, h4, h5]

/-- Witness for C2 at a concrete complete template. -/
theorem c2_witness :
    (inStr overviewSec demoTemplate = true ∧ inStr authSec demoTemplate = true ∧
     inStr endpointsSec demoTemplate = true ∧ inStr examplesSec demoTemplate = true ∧
     inStr errorCodesSec demoTemplate = true) ∧
    validate_template_content demoTemplate
      = { valid := true, errors := [], warnings := [] } :=
  ⟨⟨by decide, by decide, by decide, by decide, by decide⟩,
   c2_all_sections_valid demoTemplate (by decide) (by decide) (by decide)
     (by decide) (by decide)⟩

/-- Counterexample to C3 as stated: on a template missing exactly
`## Error Codes`, the reported list is `["## Error Codes"]` — the missing
heading itself — and not `["Missing required section: Error Codes"]`. -/
theorem c3_counterexample :
    (validate_template_content missingErrTemplate).valid = false ∧
    (validate_template_content missingErrTemplate).errors = [errorCodesSec] ∧
    (validate_template_content missingErrTemplate).errors ≠ [claimedErrMsg] := by
  decide

/-- C3 (amended).  For every template, the error list is exactly the
missing required headings, as the literal heading strings, in the order
checked; validation fails iff that list is non-empty; for the concrete
template missing only `## Error Codes` the list is `["## Error Codes"]`. -/
theorem c3_missing_sections (t : Chars) :
    (validate_template_content t).errors
        = (required_sections.filter fun sec => !(inStr sec t)) ∧
    ((validate_template_content t).valid = false ↔
        (validate_template_content t).errors ≠ []) ∧
    (validate_template_content missingErrTemplate).errors = [errorCodesSec] := by
  refine ⟨errors_eq_filter t, ?_, by decide⟩
  simp [validate_template_content]

/-- Counterexample to C4 as stated: `tripleHashTemplate` carries every
section name only inside `### ...` headings, yet the validator accepts it
outright — the check of line 43 is a plain substring test, and
`"### Overview"` contains `"## Overview"`. -/
theorem c4_counterexample :
    validate_template_content tripleHashTemplate
      = { valid := true, errors := [], warnings := [] } := by
  decide

/-- C4 (amended).  A required section counts as present exactly when its
heading string `## <Section>` occurs as a substring anywhere in the
template (case-sensitive), including inside other constructs such as
third-level headings or code blocks. -/
theorem c4_section_presence (t : Chars) :
    (overviewSec ∈ (validate_template_content t).errors ↔ inStr overviewSec t = false) ∧
    (authSec ∈ (validate_template_content t).errors ↔ inStr authSec t = false) ∧
    (endpointsSec ∈ (validate_template_content t).errors ↔ inStr endpointsSec t = false) ∧
    (examplesSec ∈ (validate_template_content t).errors ↔ inStr examplesSec t = false) ∧
    (errorCodesSec ∈ (validate_template_content t).errors ↔ inStr errorCodesSec t = false) := by
  rw [errors_eq_filter]
  refine ⟨?_, ?_, ?_, ?_, ?_⟩ <;>
    · rw [List.mem_filter]
      constructor
      · rintro ⟨-, hp⟩
        simpa using hp
      · intro hf
        exact ⟨by decide, by simpa using hf⟩

/-- Counterexample to C5 as stated: a template containing a fenced `json`
block with the invalid body `{"a": }` produces no warning at all, not
exactly one — the source validator never parses code blocks and has no
warning output. -/
theorem c5_counterexample :
    inStr jsonFence (demoTemplate ++ badJsonBlock) = true ∧
    ¬ (validate_template_content (demoTemplate ++ badJsonBlock)).warnings.length = 1 := by
  decide

/-- C5 (amended).  Template validation emits no warnings whatever the
input, and appending a fenced `json` block with invalid JSON leaves the
entire validation outcome — `valid` included — unchanged. -/
theorem c5_no_warnings (t : Chars) :
    (validate_template_content t).warnings = [] ∧
    validate_template_content (t ++ badJsonBlock) = validate_template_content t := by
  constructor
  · rfl
  · have key : ∀ sec ∈ required_sections,
        inStr sec (t ++ badJsonBlock) = inStr sec t := by
      intro sec hsec
      simp only [required_sections, List.mem_cons, List.not_mem_nil, or_false] at hsec
      rcases hsec with rfl | rfl | rfl | rfl | rfl
      · exact inStr_append_eq t (by decide) ⟨badJsonTail, rfl⟩ (by decide)
      · exact inStr_append_eq t (by decide) ⟨badJsonTail, rfl⟩ (by decide)
      · exact inStr_append_eq t (by decide) ⟨badJsonTail, rfl⟩ (by decide)
      · exact inStr_append_eq t (by decide) ⟨badJsonTail, rfl⟩ (by decide)
      · exact inStr_append_eq t (by decide) ⟨badJsonTail, rfl⟩ (by decide)
    have hfil : (required_sections.filter fun sec => !(inStr sec (t ++ badJsonBlock)))
        = required_sections.filter fun sec => !(inStr sec t) :=
      List.filter_congr fun sec hsec => by rw [key sec hsec]
    simp [validate_template_content, foldl_missing, hfil]

/-- C6.  In generate mode, when the template path is absent from the file
system, the run exits with code 1 and writes no file at all — neither the
output document nor the report. -/
theorem c6_missing_template (fs : Chars → Option Chars)
    (tpath opath rpath ts : Chars) (h : fs tpath = none) :
    runGenerate fs tpath opath rpath ts = (1, []) := by
  simp [runGenerate, h]

/-- Default paths of the command line (lines 170–175). -/
def tplPath : Chars := "docs/templates/api-docs-template.md".toList

def outPath : Chars := "docs/api/endpoints.md".toList

def repPath : Chars := "reports/api-docs-validation.json".toList

/-- Witness for C6 on an empty file system and the default paths. -/
theorem c6_witness :
    (fun _ : Chars => (none : Option Chars)) tplPath = none ∧
    runGenerate (fun _ => none) tplPath outPath repPath [] = (1, []) :=
  ⟨rfl, c6_missing_template (fun _ => none) tplPath outPath repPath [] rfl⟩

/-- C7.  Round-trip: generating a document (with or without metadata) and
validating the generated content reports `has_<section>` = true for every
required section whose heading occurs verbatim in the source template. -/
theorem c7_roundtrip (content ts : Chars) (md : Option Metadata) :
    (inStr overviewSec content = true →
      (validate_generated_docs (Except.ok (generate_api_docs content md ts))).has_overview = true) ∧
    (inStr authSec content = true →
      (validate_generated_docs (Except.ok (generate_api_docs content md ts))).has_authentication = true) ∧
    (inStr endpointsSec content = true →
      (validate_generated_docs (Except.ok (generate_api_docs content md ts))).has_endpoints = true) ∧
    (inStr examplesSec content = true →
      (validate_generated_docs (Except.ok (generate_api_docs content md ts))).has_examples = true) ∧
    (inStr errorCodesSec content = true →
      (validate_generated_docs (Except.ok (generate_api_docs content md ts))).has_error_codes = true) := by
  have main : ∀ sec : Chars, noCross titleLine sec → inStr sec content = true →
      inStr sec (generate_api_docs content md ts) = true := by
    intro sec hnc hin
    cases md with
    | none => exact hin
    | some m =>
      rw [inStr_iff] at hin ⊢
      show sec <:+: replaceAll titleLine (titleLine ++ metadata_section ts m.getVersion) content
      exact keepInf (by decide) content.length content sec (Nat.le_refl _) hnc hin
  refine ⟨fun h => ?_, fun h => ?_, fun h => ?_, fun h => ?_, fun h => ?_⟩
  · simpa [validate_generated_docs] using main overviewSec (by unfold noCross; decide) h
  · simpa [validate_generated_docs] using main authSec (by unfold noCross; decide) h
  · simpa [validate_generated_docs] using main endpointsSec (by unfold noCross; decide) h
  · simpa [validate_generated_docs] using main examplesSec (by unfold noCross; decide) h
  · simpa [validate_generated_docs] using main errorCodesSec (by unfold noCross; decide) h

/-- The metadata `main` passes to generation (lines 191–195), restricted
to the key that is read. -/
def demoMeta : Metadata := { version := some "1.0.0".toList }

/-- A sample ISO-8601 generation timestamp. -/
def demoTs : Chars := "2025-01-01T00:00:00".toList

/-- Witness for C7: the complete demo template round-trips. -/
theorem c7_witness :
    (validate_generated_docs (Except.ok
        (generate_api_docs demoTemplate (some demoMeta) demoTs))).has_overview = true ∧
    (validate_generated_docs (Except.ok
        (generate_api_docs demoTemplate (some demoMeta) demoTs))).has_authentication = true ∧
    (validate_generated_docs (Except.ok
        (generate_api_docs demoTemplate (some demoMeta) demoTs))).has_endpoints = true ∧
    (validate_generated_docs (Except.ok
        (generate_api_docs demoTemplate (some demoMeta) demoTs))).has_examples = true ∧
    (validate_generated_docs (Except.ok
        (generate_api_docs demoTemplate (some demoMeta) demoTs))).has_error_codes = true :=
  let h := c7_roundtrip demoTemplate demoTs (some demoMeta)
  ⟨h.1 (by decide), h.2.1 (by decide), h.2.2.1 (by decide), h.2.2.2.1 (by decide),
   h.2.2.2.2 (by decide)⟩

/-- Everything of the injected metadata block before the timestamp. -/
def tsPre : Chars := "\n<!-- Generated: ".toList

/-- Everything of the injected metadata block after the timestamp. -/
def tsPost (ver : Chars) : Chars :=
  " -->\n".toList ++ "<!-- Version: ".toList ++ ver ++ " -->\n".toList

/-- C8.  Structural idempotence of generation: from one template content
and one metadata record, the outputs of two runs are the same segment
list joined with separators that agree except in the timestamp slot —
every byte outside the embedded timestamps, the version line included, is
identical across runs. -/
theorem c8_idempotent_structure (content ts1 ts2 : Chars) (md : Metadata) :
    ∃ segs : List Chars,
      generate_api_docs content (some md) ts1
          = joinWith (titleLine ++ tsPre ++ ts1 ++ tsPost md.getVersion) segs ∧
      generate_api_docs content (some md) ts2
          = joinWith (titleLine ++ tsPre ++ ts2 ++ tsPost md.getVersion) segs := by
  refine ⟨splitAll titleLine content, ?_, ?_⟩ <;>
  · show replaceAll titleLine (titleLine ++ metadata_section _ md.getVersion) content = _
    rw [replaceAll_eq_joinWith _ _ content.length content (Nat.le_refl _)]
    congr 1
    simp [metadata_section, tsPre, tsPost, List.append_assoc]

/-- C9.  A template that does not contain the exact title line passes
through generation byte-for-byte unchanged, metadata supplied or not: no
metadata block is injected anywhere. -/
theorem c9_no_title_passthrough (content ts : Chars) (md : Option Metadata)
    (h : inStr titleLine content = false) :
    generate_api_docs content md ts = content := by
  cases md with
  | none => rfl
  | some m =>
    have hno : ¬ titleLine <:+: content := by
      intro hin
      rw [(inStr_iff titleLine content).mpr hin] at h
      simp at h
    exact replaceAll_noOcc _ hno

/-- A document without the title line. -/
def plainDoc : Chars := "hello world, no title here".toList

/-- Witness for C9 on a concrete title-free document with metadata. -/
theorem c9_witness :
    inStr titleLine plainDoc = false ∧
    generate_api_docs plainDoc (some { version := none }) demoTs = plainDoc :=
  ⟨by decide, c9_no_title_passthrough plainDoc demoTs (some { version := none })
      (by decide)⟩

/-- C10.  On any failing read, `validate_generated_docs` returns the
record with all seven booleans false, both counts zero,
`validation_passed` false, and the failure message in the `error` field —
the exception is caught, never re-raised. -/
theorem c10_read_failure_record (e : Chars) :
    validate_generated_docs (Except.error e)
      = { has_overview := false, has_authentication := false, has_endpoints := false,
          has_examples := false, has_error_codes := false, has_http_examples := false,
          has_json_examples := false, line_count := 0, word_count := 0,
          validation_passed := false, error := some e } := rfl
